import Mathlib

/-!
Shallow embedding of the fallback (non-TA-Lib) indicator engine and the
screener of `src/backend/python/app.py`.

Conventions of the embedding:
* A pandas float `Series` of prices or volumes is a `List ℚ` (finite float
  values are modelled as rationals; the claims under study are about
  windowing, definedness, bounds and ordering, none of which depend on
  binary rounding).
* A series that may contain `NaN` entries is a `List (Option ℚ)`;
  `none` models `NaN` (pandas' marker for "undefined / insufficient
  history").
* IEEE special values arising from division are made explicit at the one
  place the source can produce them (`rs = gain / loss` with
  `loss = 0`): `gain > 0` gives `+inf`, and `100 - 100/(1 + inf) = 100`;
  `0/0` gives `NaN`, i.e. `none`.
-/

namespace App

/-- `prices.diff()`: first entry is `NaN` (`none`), entry `i` (`i ≥ 1`) is
`prices[i] - prices[i-1]`. -/
def diff (prices : List ℚ) : List (Option ℚ) :=
  match prices with
  | [] => []
  | _ :: t => none :: List.zipWith (fun a b => some (a - b)) t prices

/-- `delta.where(delta > 0, 0)`: keep `delta` where the condition holds,
else `0`.  Note `NaN > 0` is `False` in pandas, so the leading `NaN`
becomes `0`. -/
def gains (prices : List ℚ) : List ℚ :=
  (diff prices).map (fun o =>
    match o with
    | none => 0
    | some d => if 0 < d then d else 0)

/-- `(-delta.where(delta < 0, 0))`: the loss series, nonnegative. -/
def losses (prices : List ℚ) : List ℚ :=
  (diff prices).map (fun o =>
    match o with
    | none => 0
    | some d => if d < 0 then -d else 0)

/-- `s.rolling(window=w).mean()`: position `i` is the mean of the trailing
`w` samples `s[i-w+1..i]` when the window is full (`i + 1 ≥ w`), else
`NaN` (pandas' default `min_periods = window`). -/
def rollingMean (l : List ℚ) (w : ℕ) : List (Option ℚ) :=
  (List.range l.length).map (fun i =>
    if w ≤ i + 1 then some ((((l.take (i + 1)).drop (i + 1 - w)).sum) / (w : ℚ))
    else none)

/-- The pointwise combination `100 - 100 / (1 + gain/loss)` of the source,
with IEEE division made explicit: `loss = 0, gain > 0` yields `+inf` for
`rs`, hence RSI `= 100`; `0/0` yields `NaN`. -/
def rsiVal (g l : Option ℚ) : Option ℚ :=
  match g, l with
  | some ag, some al =>
      if al = 0 then (if ag = 0 then none else some 100)
      else some (100 - 100 / (1 + ag / al))
  | _, _ => none

/-- Fallback branch of `calculate_rsi` (source lines 27-33). -/
def calculate_rsi (prices : List ℚ) (period : ℕ) : List (Option ℚ) :=
  List.zipWith rsiVal (rollingMean (gains prices) period)
    (rollingMean (losses prices) period)

/-- The running tail of `ewm(span, adjust=False).mean()` after the seed:
each output is `a * x + (1 - a) * prev`. -/
def ewmFrom (a : ℚ) : ℚ → List ℚ → List ℚ
  | _, [] => []
  | prev, x :: rest => (a * x + (1 - a) * prev) :: ewmFrom a (a * x + (1 - a) * prev) rest

/-- `prices.ewm(span=s, adjust=False).mean()`: seeded from the first
sample, recurrence `y[i] = a*x[i] + (1-a)*y[i-1]` with `a = 2/(s+1)`. -/
def ewmMean (xs : List ℚ) (s : ℚ) : List ℚ :=
  match xs with
  | [] => []
  | x :: rest => x :: ewmFrom (2 / (s + 1)) x rest

structure MacdResult where
  macd : List ℚ
  signal : List ℚ
  histogram : List ℚ

/-- Fallback branch of `calculate_macd` (source lines 41-47). -/
def calculate_macd (prices : List ℚ) : MacdResult :=
  { macd := List.zipWith (fun a b => a - b) (ewmMean prices 12) (ewmMean prices 26)
    signal := ewmMean (List.zipWith (fun a b => a - b) (ewmMean prices 12) (ewmMean prices 26)) 9
    histogram := List.zipWith (fun a b => a - b)
      (List.zipWith (fun a b => a - b) (ewmMean prices 12) (ewmMean prices 26))
      (ewmMean (List.zipWith (fun a b => a - b) (ewmMean prices 12) (ewmMean prices 26)) 9) }

/-- Modelled from the spec (section 4.2), for the refinement claim about
`calculate_macd`: the reference EMA, `ema[0] = x[0]`,
`ema[i] = a*x[i] + (1-a)*ema[i-1]` with `a = 2/(span+1)`. -/
def emaSpec (xs : List ℚ) (s : ℚ) : ℕ → ℚ
  | 0 => xs.headD 0
  | i + 1 => (2 / (s + 1)) * xs.getD (i + 1) 0 + (1 - 2 / (s + 1)) * emaSpec xs s i

/-- `s.rolling(window=w).std()` squared, i.e. the rolling sample variance
(pandas default `ddof = 1`): defined when the window is full and
`w - ddof > 0`, i.e. `2 ≤ w`; otherwise `NaN`. -/
def rollingVar (l : List ℚ) (w : ℕ) : List (Option ℚ) :=
  (List.range l.length).map (fun i =>
    if w ≤ i + 1 ∧ 2 ≤ w then
      some ((((((l.take (i + 1)).drop (i + 1 - w)).map
        (fun x => (x - (((l.take (i + 1)).drop (i + 1 - w)).sum) / (w : ℚ)) ^ 2)).sum))
        / ((w : ℚ) - 1))
    else none)

/-- `s.rolling(window=w).std()`: the square root of the rolling sample
variance.  The square root of a rational is irrational in general, so the
value lives in `ℝ`. -/
noncomputable def rollingStd (l : List ℚ) (w : ℕ) : List (Option ℝ) :=
  (rollingVar l w).map (Option.map (fun v => Real.sqrt ((v : ℚ) : ℝ)))

structure BollingerBands where
  upper : List (Option ℝ)
  middle : List (Option ℝ)
  lower : List (Option ℝ)

/-- Fallback branch of `calculate_bollinger_bands` (source lines 55-60):
`upper = sma + std*std_dev`, `middle = sma`, `lower = sma - std*std_dev`,
with `NaN` propagating through the arithmetic. -/
noncomputable def calculate_bollinger_bands (prices : List ℚ) (period : ℕ) (std_dev : ℚ) :
    BollingerBands :=
  { upper := List.zipWith (fun m s => match m, s with
      | some mv, some sv => some ((mv : ℝ) + sv * (std_dev : ℝ))
      | _, _ => none) (rollingMean prices period) (rollingStd prices period)
    middle := (rollingMean prices period).map (Option.map (fun q : ℚ => (q : ℝ)))
    lower := List.zipWith (fun m s => match m, s with
      | some mv, some sv => some ((mv : ℝ) - sv * (std_dev : ℝ))
      | _, _ => none) (rollingMean prices period) (rollingStd prices period) }

/-- `series.mean()` for a nonempty series. -/
def listMean (l : List ℚ) : ℚ := l.sum / (l.length : ℚ)

/-- `latest_volume / avg_volume if avg_volume > 0 else 0` (source lines
100-103 and 149-151). -/
def volumeSpikeOf (vols : List ℚ) : ℚ :=
  if 0 < listMean vols then vols.getLastD 0 / listMean vols else 0

/-! ## The screener (source lines 122-174) -/

/-- One bar of the retrieved history: a close price and a volume. -/
structure Row where
  close : ℚ
  volume : ℚ

/-- The criteria record: `rsi_min`, `rsi_max` and the volume-spike
threshold `volume_spike` (source lines 130-132). -/
structure Criteria where
  rsi_min : ℚ
  rsi_max : ℚ
  volume_spike : ℚ

/-- The external collaborator (`yf.Ticker(..).history(..)` and everything
else inside the per-ticker `try`): it either raises an exception, or
returns a (possibly empty) history. -/
inductive FetchOutcome where
  | raise : FetchOutcome
  | ok : List Row → FetchOutcome

structure ScreenerMatch where
  ticker : String
  price : ℚ
  rsi : ℚ
  volume_spike : ℚ
  score : ℚ
deriving DecidableEq

/-- `float(rsi.iloc[-1])` for the 14-period RSI of the closes; `none`
models a `NaN` latest value. -/
def latestRsiOf (prices : List ℚ) : Option ℚ :=
  (calculate_rsi prices 14).getLastD none

/-- The body of the per-ticker loop of `run_screener` (source lines
137-165): an exception or an empty history is skipped (`continue`), an
undefined (`NaN`) latest RSI fails the chained comparison
`rsi_min <= latest_rsi <= rsi_max`, and an admitted ticker carries the
score `(100 - abs(50 - latest_rsi)) + (vol_spike * 10)`. -/
def evalTicker (crit : Criteria) (t : String) (outcome : FetchOutcome) : Option ScreenerMatch :=
  match outcome with
  | .raise => none
  | .ok rows =>
    if rows.isEmpty then none
    else
      match latestRsiOf (rows.map Row.close) with
      | none => none
      | some r =>
        if crit.rsi_min ≤ r ∧ r ≤ crit.rsi_max ∧
            crit.volume_spike ≤ volumeSpikeOf (rows.map Row.volume) then
          some { ticker := t
                 price := (rows.map Row.close).getLastD 0
                 rsi := r
                 volume_spike := volumeSpikeOf (rows.map Row.volume)
                 score := (100 - |50 - r|) + volumeSpikeOf (rows.map Row.volume) * 10 }
        else none

/-- The `results` accumulator of `run_screener` before sorting: one entry
per admitted ticker, in input order. -/
def matchList (fetch : String → FetchOutcome) (tickers : List String) (crit : Criteria) :
    List ScreenerMatch :=
  tickers.filterMap (fun t => evalTicker crit t (fetch t))

/-- The comparator realising `results.sort(key=score, reverse=True)`:
descending by score; Python's sort is stable. -/
def scoreLe (a b : ScreenerMatch) : Bool := decide (b.score ≤ a.score)

structure ScreenerReport where
  results : List ScreenerMatch
  total_scanned : ℕ
  /-- The `matches` key of the JSON response (`matches` is a Lean keyword,
  so the spec's §3 name `matches_found` is used). -/
  matches_found : ℕ
deriving DecidableEq

/-- `run_screener` (source lines 122-174): evaluate every ticker, sort the
admitted matches by score descending (stable), return the first 10, the
number of tickers scanned, and the number of matches before truncation. -/
def run_screener (fetch : String → FetchOutcome) (tickers : List String) (crit : Criteria) :
    ScreenerReport :=
  { results := ((matchList fetch tickers crit).mergeSort scoreLe).take 10
    total_scanned := tickers.length
    matches_found := (matchList fetch tickers crit).length }

/-! ## Concrete data for the scenario claims -/

/-- The 15-sample scenario price series of the spec (section 8). -/
def scenario : List ℚ :=
  [10, 21/2, 51/5, 54/5, 11, 109/10, 56/5, 23/2, 113/10, 58/5, 59/5, 119/10, 12, 61/5, 121/10]

/-- Scenario criteria: `{rsi_min: 30, rsi_max: 70, volume_spike: 1.5}`. -/
def critScenario : Criteria := { rsi_min := 30, rsi_max := 70, volume_spike := 3/2 }

/-- History for ticker "A": closes crafted so the latest 14-period RSI is
exactly 45 (one gain of 9 and one loss of 11 inside the trailing window),
volumes so the spike ratio is exactly 2. -/
def rowsA : List Row :=
  { close := 100, volume := 1 } :: { close := 109, volume := 1 } ::
    ((List.replicate 12 { close := 98, volume := 1 }) ++ [{ close := 98, volume := 28/13 }])

/-- History for ticker "B": closes crafted so the latest 14-period RSI is
exactly 80 (one gain of 4 and one loss of 1 inside the trailing window). -/
def rowsB : List Row :=
  { close := 100, volume := 1 } :: { close := 104, volume := 1 } ::
    List.replicate 13 { close := 103, volume := 1 }

/-- The scenario environment: "A" and "B" have the histories above. -/
def envScenario : String → FetchOutcome :=
  fun t => if t = "A" then .ok rowsA else if t = "B" then .ok rowsB else .raise

/-- The match record the scenario expects for ticker "A". -/
def matchA : ScreenerMatch :=
  { ticker := "A", price := 98, rsi := 45, volume_spike := 2, score := 115 }

/-! ## Helper lemmas -/

theorem zipWithElem {α β γ : Type} (f : α → β → γ) :
    ∀ (a : List α) (b : List β) (i : ℕ),
      (List.zipWith f a b)[i]? = a[i]?.bind (fun x => b[i]?.map (f x)) := by
  intro a
  induction a with
  | nil => intro b i; simp
  | cons x t ih =>
    intro b i
    cases b with
    | nil => simp
    | cons y u =>
      cases i with
      | zero => simp
      | succ j => simpa using ih u j

theorem rollingMean_length (l : List ℚ) (w : ℕ) : (rollingMean l w).length = l.length := by
  simp [rollingMean]

theorem rollingMean_getElem?_lt (l : List ℚ) (w i : ℕ) (h : i < l.length) :
    (rollingMean l w)[i]? =
      some (if w ≤ i + 1 then
        some ((((l.take (i + 1)).drop (i + 1 - w)).sum) / (w : ℚ)) else none) := by
  simp [rollingMean, List.getElem?_map, List.getElem?_range h]

theorem diff_length (p : List ℚ) : (diff p).length = p.length := by
  cases p with
  | nil => rfl
  | cons x t => simp [diff]

theorem gains_length (p : List ℚ) : (gains p).length = p.length := by
  simp [gains, diff_length]

theorem losses_length (p : List ℚ) : (losses p).length = p.length := by
  simp [losses, diff_length]

theorem gains_nonneg (p : List ℚ) : ∀ x ∈ gains p, 0 ≤ x := by
  intro x hx
  simp only [gains, List.mem_map] at hx
  obtain ⟨o, _, rfl⟩ := hx
  cases o with
  | none => exact le_refl 0
  | some d =>
    by_cases hd : 0 < d
    · simp [hd]; exact le_of_lt hd
    · simp [hd]

theorem losses_nonneg (p : List ℚ) : ∀ x ∈ losses p, 0 ≤ x := by
  intro x hx
  simp only [losses, List.mem_map] at hx
  obtain ⟨o, _, rfl⟩ := hx
  cases o with
  | none => exact le_refl 0
  | some d =>
    by_cases hd : d < 0
    · simp [hd]; linarith
    · simp [hd]

theorem window_nonneg (l : List ℚ) (hnn : ∀ x ∈ l, 0 ≤ x) (a b : ℕ) :
    ∀ x ∈ (l.take a).drop b, 0 ≤ x := by
  intro x hx
  exact hnn x (((List.drop_sublist _ _).trans (List.take_sublist _ _)).subset hx)

theorem getElem?_le_sum (l : List ℚ) (hnn : ∀ x ∈ l, 0 ≤ x) :
    ∀ (i : ℕ) (x : ℚ), l[i]? = some x → x ≤ l.sum := by
  induction l with
  | nil => intro i x hx; simp at hx
  | cons y t ih =>
    intro i x hx
    have hts : 0 ≤ t.sum :=
      List.sum_nonneg (fun z hz => hnn z (List.mem_cons_of_mem y hz))
    cases i with
    | zero =>
      simp at hx
      subst hx
      simp only [List.sum_cons]
      linarith
    | succ j =>
      simp only [List.getElem?_cons_succ] at hx
      have hy : 0 ≤ y := hnn y (List.mem_cons_self y t)
      have := ih (fun z hz => hnn z (List.mem_cons_of_mem y hz)) j x hx
      simp only [List.sum_cons]
      linarith

theorem rollingMean_nonneg (l : List ℚ) (hnn : ∀ x ∈ l, 0 ≤ x) (w i : ℕ) (v : ℚ)
    (h : (rollingMean l w)[i]? = some (some v)) : 0 ≤ v := by
  by_cases hi : i < l.length
  · rw [rollingMean_getElem?_lt l w i hi] at h
    by_cases hc : w ≤ i + 1
    · simp only [hc, if_true, Option.some.injEq] at h
      subst h
      exact div_nonneg (List.sum_nonneg (window_nonneg l hnn _ _)) (by positivity)
    · simp [hc] at h
  · have hnone : (rollingMean l w)[i]? = none :=
      List.getElem?_eq_none (by rw [rollingMean_length]; omega)
    rw [hnone] at h
    exact absurd h (by simp)

theorem diff_getElem?_succ (p : List ℚ) (k : ℕ) (hk : k + 1 < p.length) :
    (diff p)[k+1]? = some (some (p.getD (k+1) 0 - p.getD k 0)) := by
  cases p with
  | nil => simp at hk
  | cons x t =>
    have hkt : k < t.length := by simpa using hk
    have hkp : k < (x :: t).length := by simp; omega
    simp only [diff, List.getElem?_cons_succ]
    rw [zipWithElem]
    rw [List.getElem?_eq_getElem hkt, List.getElem?_eq_getElem hkp]
    simp [List.getD_cons_succ, List.getD_eq_getElem t 0 hkt,
      List.getD_eq_getElem (x :: t) 0 hkp, List.getElem?_eq_getElem hkt,
      List.getElem?_eq_getElem hkp]

theorem gains_getElem?_succ (p : List ℚ) (k : ℕ) (hk : k + 1 < p.length) :
    (gains p)[k+1]? =
      some (if 0 < p.getD (k+1) 0 - p.getD k 0 then p.getD (k+1) 0 - p.getD k 0 else 0) := by
  simp [gains, List.getElem?_map, diff_getElem?_succ p k hk]

theorem losses_getElem?_succ (p : List ℚ) (k : ℕ) (hk : k + 1 < p.length) :
    (losses p)[k+1]? =
      some (if p.getD (k+1) 0 - p.getD k 0 < 0 then -(p.getD (k+1) 0 - p.getD k 0) else 0) := by
  simp [losses, List.getElem?_map, diff_getElem?_succ p k hk]

theorem rsiVal_some (ag al : ℚ) (h : 0 < ag ∨ 0 < al) :
    ∃ r, rsiVal (some ag) (some al) = some r := by
  unfold rsiVal
  by_cases hal : al = 0
  · rcases h with hag | hal'
    · exact ⟨100, by simp [hal, ne_of_gt hag]⟩
    · exact absurd hal (ne_of_gt hal')
  · exact ⟨100 - 100 / (1 + ag / al), by simp [hal]⟩

theorem rsiVal_mem_bounds (ag al r : ℚ) (hag : 0 ≤ ag) (hal : 0 ≤ al)
    (h : rsiVal (some ag) (some al) = some r) : 0 ≤ r ∧ r ≤ 100 := by
  unfold rsiVal at h
  by_cases h0 : al = 0
  · by_cases hag0 : ag = 0
    · simp [h0, hag0] at h
    · simp only [h0, if_true, hag0, if_false, Option.some.injEq] at h
      subst h
      norm_num
  · simp only [h0, if_false, Option.some.injEq] at h
    subst h
    have hal' : 0 < al := lt_of_le_of_ne hal (Ne.symm h0)
    have hrs : 0 ≤ ag / al := div_nonneg hag (le_of_lt hal')
    have h1 : (0:ℚ) < 1 + ag / al := by linarith
    have h2 : 100 / (1 + ag / al) ≤ 100 := div_le_self (by norm_num) (by linarith)
    have h3 : 0 ≤ 100 / (1 + ag / al) := div_nonneg (by norm_num) (le_of_lt h1)
    constructor <;> linarith

theorem rsi_undefined_below (p : List ℚ) (P i : ℕ) (hi : i < p.length) (hiP : i + 1 < P) :
    (calculate_rsi p P)[i]? = some none := by
  have hg : i < (gains p).length := by rwa [gains_length]
  have hl : i < (losses p).length := by rwa [losses_length]
  rw [calculate_rsi, zipWithElem, rollingMean_getElem?_lt _ _ _ hg,
    rollingMean_getElem?_lt _ _ _ hl]
  have hc : ¬ P ≤ i + 1 := by omega
  simp [hc, rsiVal]

theorem rsi_defined_at (p : List ℚ) (P : ℕ) (hP : 1 ≤ P) (hlen : P ≤ p.length)
    (j : ℕ) (hj : j + 1 < P) (hd : p.getD (j+1) 0 ≠ p.getD j 0) :
    ∃ r, (calculate_rsi p P)[P-1]? = some (some r) := by
  have hi : P - 1 < p.length := by omega
  have hi1 : P - 1 + 1 = P := by omega
  have hg : P - 1 < (gains p).length := by rwa [gains_length]
  have hl : P - 1 < (losses p).length := by rwa [losses_length]
  have hgval : (rollingMean (gains p) P)[P-1]? =
      some (some (((gains p).take P).sum / (P : ℚ))) := by
    rw [rollingMean_getElem?_lt _ _ _ hg, hi1, if_pos (le_refl P), Nat.sub_self,
      List.drop_zero]
  have hlval : (rollingMean (losses p) P)[P-1]? =
      some (some (((losses p).take P).sum / (P : ℚ))) := by
    rw [rollingMean_getElem?_lt _ _ _ hl, hi1, if_pos (le_refl P), Nat.sub_self,
      List.drop_zero]
  have hPpos : (0:ℚ) < (P : ℚ) := by exact_mod_cast hP
  have hdne : p.getD (j+1) 0 - p.getD j 0 ≠ 0 := sub_ne_zero.mpr hd
  have hjp : j + 1 < p.length := by omega
  have key : 0 < ((gains p).take P).sum / (P : ℚ) ∨
      0 < ((losses p).take P).sum / (P : ℚ) := by
    rcases lt_or_gt_of_ne hdne with hneg | hpos
    · right
      have he : (losses p)[j+1]? = some (-(p.getD (j+1) 0 - p.getD j 0)) := by
        rw [losses_getElem?_succ p j hjp, if_pos hneg]
      have he2 : ((losses p).take P)[j+1]? = some (-(p.getD (j+1) 0 - p.getD j 0)) := by
        rw [List.getElem?_take_of_lt hj, he]
      have hnn : ∀ x ∈ (losses p).take P, 0 ≤ x :=
        fun x hx => losses_nonneg p x ((List.take_sublist _ _).subset hx)
      have hsum := getElem?_le_sum _ hnn _ _ he2
      have hspos : 0 < ((losses p).take P).sum := by linarith
      exact div_pos hspos hPpos
    · left
      have he : (gains p)[j+1]? = some (p.getD (j+1) 0 - p.getD j 0) := by
        rw [gains_getElem?_succ p j hjp, if_pos hpos]
      have he2 : ((gains p).take P)[j+1]? = some (p.getD (j+1) 0 - p.getD j 0) := by
        rw [List.getElem?_take_of_lt hj, he]
      have hnn : ∀ x ∈ (gains p).take P, 0 ≤ x :=
        fun x hx => gains_nonneg p x ((List.take_sublist _ _).subset hx)
      have hsum := getElem?_le_sum _ hnn _ _ he2
      have hspos : 0 < ((gains p).take P).sum := by linarith
      exact div_pos hspos hPpos
  obtain ⟨r, hr⟩ := rsiVal_some _ _ key
  refine ⟨r, ?_⟩
  rw [calculate_rsi, zipWithElem, hgval, hlval]
  show some (rsiVal (some (((gains p).take P).sum / (P : ℚ)))
    (some (((losses p).take P).sum / (P : ℚ)))) = some (some r)
  rw [hr]

/-! ## Claim theorems -/

/-- C1, counterexample: for the constant price series of length 14 and
period 14 the claim asserts the RSI at index `P - 1 = 13` is defined, but
the code yields `NaN` there (`avg_gain = avg_loss = 0`, so
`rs = 0/0 = NaN`). -/
theorem rsi_constant_series_undefined_at_13 :
    (List.replicate 14 (1:ℚ)).length = 14 ∧
    (calculate_rsi (List.replicate 14 (1:ℚ)) 14)[13]? = some none := by
  constructor
  · simp
  · with_unfolding_all rfl

/-- C1 (amended): for period `P ≥ 1`, the fallback RSI is undefined at
every position `i` with `i + 1 < P` (i.e. `i < P - 1`); for a series
shorter than `P` every position is undefined; and at `i = P - 1` it is
defined provided some two consecutive prices among the first `P` differ
(for the all-equal window the value is `0/0 = NaN`); in particular the
15-sample scenario series with `P = 14` has RSI `1400/17` at index 13. -/
theorem rsi_first_defined_index :
    (∀ (p : List ℚ) (P : ℕ), 1 ≤ P →
      ∀ i, i < p.length → i + 1 < P → (calculate_rsi p P)[i]? = some none) ∧
    (∀ (p : List ℚ) (P : ℕ), 1 ≤ P → p.length < P →
      ∀ i, i < p.length → (calculate_rsi p P)[i]? = some none) ∧
    (∀ (p : List ℚ) (P : ℕ), 1 ≤ P → P ≤ p.length →
      ∀ j, j + 1 < P → p.getD (j+1) 0 ≠ p.getD j 0 →
      ∃ r, (calculate_rsi p P)[P-1]? = some (some r)) ∧
    (calculate_rsi scenario 14)[13]? = some (some (1400/17)) := by
  refine ⟨?_, ?_, ?_, ?_⟩
  · intro p P _ i hi hiP
    exact rsi_undefined_below p P i hi hiP
  · intro p P _ hlen i hi
    exact rsi_undefined_below p P i hi (by omega)
  · intro p P hP hlen j hj hd
    exact rsi_defined_at p P hP hlen j hj hd
  · with_unfolding_all rfl

/-- C1 witness: the amended theorem applied with period 14 to the
15-sample scenario series, at the undefined position 12 and with the
consecutive pair at indices 0 and 1 witnessing definedness at 13. -/
theorem rsi_first_defined_index_witness :
    (calculate_rsi scenario 14)[12]? = some none ∧
    (∃ r, (calculate_rsi scenario 14)[14-1]? = some (some r)) := by
  constructor
  · exact rsi_first_defined_index.1 scenario 14 (by norm_num)
      12 (by with_unfolding_all decide) (by norm_num)
  · exact rsi_first_defined_index.2.2.1 scenario 14 (by norm_num)
      (by with_unfolding_all decide) 0 (by norm_num)
      (by with_unfolding_all decide)

/-- C2: every defined value of the fallback RSI lies in `[0, 100]`, for
every price series and period. -/
theorem rsi_bounded (p : List ℚ) (P i : ℕ) (r : ℚ)
    (h : (calculate_rsi p P)[i]? = some (some r)) : 0 ≤ r ∧ r ≤ 100 := by
  rw [calculate_rsi, zipWithElem] at h
  cases hg : (rollingMean (gains p) P)[i]? with
  | none => rw [hg] at h; simp at h
  | some og =>
    cases hl : (rollingMean (losses p) P)[i]? with
    | none => rw [hg, hl] at h; simp at h
    | some ol =>
      rw [hg, hl] at h
      replace h : rsiVal og ol = some r := Option.some.inj h
      cases og with
      | none => simp [rsiVal] at h
      | some ag =>
        cases ol with
        | none => simp [rsiVal] at h
        | some al =>
          exact rsiVal_mem_bounds ag al r
            (rollingMean_nonneg _ (gains_nonneg p) _ _ _ hg)
            (rollingMean_nonneg _ (losses_nonneg p) _ _ _ hl) h

/-- C2 witness: the bound applied to the defined scenario value
`1400/17` at index 13. -/
theorem rsi_bounded_witness : (0:ℚ) ≤ 1400/17 ∧ (1400/17:ℚ) ≤ 100 :=
  rsi_bounded scenario 14 13 (1400/17) (by with_unfolding_all rfl)

/-- C3: when the trailing average loss at a position is exactly zero and
the average gain is positive, the fallback RSI at that position is the
limiting value 100 (pandas: `rs = gain/0 = +inf`,
`100 - 100/(1+inf) = 100`), not an exception. -/
theorem rsi_zero_loss_is_100 (p : List ℚ) (P i : ℕ) (ag : ℚ)
    (hg : (rollingMean (gains p) P)[i]? = some (some ag))
    (hl : (rollingMean (losses p) P)[i]? = some (some 0))
    (hag : 0 < ag) :
    (calculate_rsi p P)[i]? = some (some 100) := by
  rw [calculate_rsi, zipWithElem, hg, hl]
  show some (rsiVal (some ag) (some 0)) = some (some 100)
  simp [rsiVal, ne_of_gt hag]

/-- C3 witness: the strictly increasing series `[1, 2, 3]` with period 2
has average loss 0 and average gain `1/2` at the last index, hence RSI
exactly 100 there. -/
theorem rsi_zero_loss_is_100_witness :
    (calculate_rsi [1, 2, 3] 2)[2]? = some (some 100) :=
  rsi_zero_loss_is_100 [1, 2, 3] 2 2 1
    (by with_unfolding_all rfl) (by with_unfolding_all rfl) (by norm_num)

/-! ## EMA and MACD lemmas -/

theorem ewmFrom_length (a : ℚ) (l : List ℚ) : ∀ prev, (ewmFrom a prev l).length = l.length := by
  induction l with
  | nil => intro prev; rfl
  | cons x rest ih => intro prev; simp [ewmFrom, ih]

theorem ewmMean_length (xs : List ℚ) (s : ℚ) : (ewmMean xs s).length = xs.length := by
  cases xs with
  | nil => rfl
  | cons x rest => simp [ewmMean, ewmFrom_length]

theorem ewmFrom_getD_succ (a : ℚ) (l : List ℚ) :
    ∀ (prev : ℚ) (i : ℕ), i + 1 < l.length →
      (ewmFrom a prev l).getD (i+1) 0 =
        a * l.getD (i+1) 0 + (1 - a) * (ewmFrom a prev l).getD i 0 := by
  induction l with
  | nil => intro prev i h; simp at h
  | cons x rest ih =>
    intro prev i h
    cases i with
    | zero =>
      cases rest with
      | nil => simp at h
      | cons y rest2 =>
        simp only [ewmFrom, List.getD_cons_succ, List.getD_cons_zero]
    | succ k =>
      have h2 : k + 1 < rest.length := by simpa using h
      simp only [ewmFrom, List.getD_cons_succ]
      exact ih _ k h2

theorem ewmMean_getD_succ (xs : List ℚ) (s : ℚ) (i : ℕ) (h : i + 1 < xs.length) :
    (ewmMean xs s).getD (i+1) 0 =
      (2/(s+1)) * xs.getD (i+1) 0 + (1 - 2/(s+1)) * (ewmMean xs s).getD i 0 := by
  cases xs with
  | nil => simp at h
  | cons x rest =>
    cases i with
    | zero =>
      cases rest with
      | nil => simp at h
      | cons y rest2 =>
        simp only [ewmMean, ewmFrom, List.getD_cons_succ, List.getD_cons_zero]
    | succ k =>
      have h2 : k + 1 < rest.length := by simpa using h
      simp only [ewmMean, List.getD_cons_succ]
      exact ewmFrom_getD_succ _ rest x k h2

theorem ewmMean_eq_emaSpec (xs : List ℚ) (s : ℚ) :
    ∀ i, i < xs.length → (ewmMean xs s).getD i 0 = emaSpec xs s i := by
  intro i
  induction i with
  | zero =>
    intro h
    cases xs with
    | nil => simp at h
    | cons x rest => rfl
  | succ k ih =>
    intro h
    have hk : k < xs.length := by omega
    rw [ewmMean_getD_succ xs s k h, ih hk]
    rfl

theorem zipWith_sub_getD (a b : List ℚ) (i : ℕ) (ha : i < a.length) (hb : i < b.length) :
    (List.zipWith (fun x y => x - y) a b).getD i 0 = a.getD i 0 - b.getD i 0 := by
  have hz : i < (List.zipWith (fun x y : ℚ => x - y) a b).length := by
    rw [List.length_zipWith]; omega
  rw [List.getD_eq_getElem _ _ hz, List.getD_eq_getElem _ _ ha, List.getD_eq_getElem _ _ hb]
  exact List.getElem_zipWith

/-- C7: the fallback MACD agrees with the reference definition: the fast
and slow lines are the spec's seeded EMA recurrences with spans 12 and 26,
`macd[i]` is their difference at every position, `signal` is the span-9
EMA of the macd series, and `histogram[i] = macd[i] - signal[i]` exactly
at every position. -/
theorem macd_matches_reference (prices : List ℚ) :
    ((calculate_macd prices).macd.length = prices.length ∧
     (calculate_macd prices).signal.length = prices.length ∧
     (calculate_macd prices).histogram.length = prices.length) ∧
    (∀ i, i < prices.length →
      (calculate_macd prices).macd.getD i 0 = emaSpec prices 12 i - emaSpec prices 26 i) ∧
    (∀ i, i < prices.length →
      (calculate_macd prices).signal.getD i 0 = emaSpec (calculate_macd prices).macd 9 i) ∧
    (∀ i, i < prices.length →
      (calculate_macd prices).histogram.getD i 0 =
        (calculate_macd prices).macd.getD i 0 - (calculate_macd prices).signal.getD i 0) := by
  have hm : (calculate_macd prices).macd.length = prices.length := by
    simp [calculate_macd, List.length_zipWith, ewmMean_length]
  have hs : (calculate_macd prices).signal.length = prices.length := by
    simp only [calculate_macd] at hm ⊢
    rw [ewmMean_length]
    exact hm
  have hh : (calculate_macd prices).histogram.length = prices.length := by
    simp only [calculate_macd] at hm hs ⊢
    rw [List.length_zipWith]
    omega
  refine ⟨⟨hm, hs, hh⟩, ?_, ?_, ?_⟩
  · intro i hi
    have h12 : i < (ewmMean prices 12).length := by rw [ewmMean_length]; exact hi
    have h26 : i < (ewmMean prices 26).length := by rw [ewmMean_length]; exact hi
    show (List.zipWith (fun x y => x - y) (ewmMean prices 12) (ewmMean prices 26)).getD i 0 = _
    rw [zipWith_sub_getD _ _ i h12 h26, ewmMean_eq_emaSpec prices 12 i hi,
      ewmMean_eq_emaSpec prices 26 i hi]
  · intro i hi
    have hmi : i < (calculate_macd prices).macd.length := by rw [hm]; exact hi
    exact ewmMean_eq_emaSpec (calculate_macd prices).macd 9 i hmi
  · intro i hi
    have hmi : i < (calculate_macd prices).macd.length := by rw [hm]; exact hi
    have hsi : i < (calculate_macd prices).signal.length := by rw [hs]; exact hi
    exact zipWith_sub_getD _ _ i hmi hsi

/-- C7 witness: the reference equality evaluated on the two-sample series
`[1, 2]` at position 1. -/
theorem macd_matches_reference_witness :
    (calculate_macd [1, 2]).histogram.getD 1 0 =
      (calculate_macd [1, 2]).macd.getD 1 0 - (calculate_macd [1, 2]).signal.getD 1 0 :=
  (macd_matches_reference [1, 2]).2.2.2 1 (by norm_num)

/-! ## Bollinger lemmas -/

theorem rollingVar_length (l : List ℚ) (w : ℕ) : (rollingVar l w).length = l.length := by
  simp [rollingVar]

theorem rollingStd_length (l : List ℚ) (w : ℕ) : (rollingStd l w).length = l.length := by
  simp [rollingStd, rollingVar_length]

theorem rollingVar_getElem?_lt (l : List ℚ) (w i : ℕ) (h : i < l.length) :
    (rollingVar l w)[i]? =
      some (if w ≤ i + 1 ∧ 2 ≤ w then
        some ((((((l.take (i + 1)).drop (i + 1 - w)).map
          (fun x => (x - (((l.take (i + 1)).drop (i + 1 - w)).sum) / (w : ℚ)) ^ 2)).sum))
          / ((w : ℚ) - 1))
        else none) := by
  simp [rollingVar, List.getElem?_map, List.getElem?_range h]

theorem bollinger_upper_eq (prices : List ℚ) (period : ℕ) (sd : ℚ) :
    (calculate_bollinger_bands prices period sd).upper =
      List.zipWith (fun m s => match m, s with
        | some mv, some sv => some ((mv : ℝ) + sv * (sd : ℝ))
        | _, _ => none) (rollingMean prices period) (rollingStd prices period) := rfl

theorem bollinger_middle_eq (prices : List ℚ) (period : ℕ) (sd : ℚ) :
    (calculate_bollinger_bands prices period sd).middle =
      (rollingMean prices period).map (Option.map (fun q : ℚ => (q : ℝ))) := rfl

theorem bollinger_lower_eq (prices : List ℚ) (period : ℕ) (sd : ℚ) :
    (calculate_bollinger_bands prices period sd).lower =
      List.zipWith (fun m s => match m, s with
        | some mv, some sv => some ((mv : ℝ) - sv * (sd : ℝ))
        | _, _ => none) (rollingMean prices period) (rollingStd prices period) := rfl

theorem bollinger_defined_values (prices : List ℚ) (period : ℕ) (sd : ℚ) (i : ℕ)
    (hi : i < prices.length) (hc : period ≤ i + 1) (hper : 2 ≤ period) :
    ∃ mq vq : ℚ, 0 ≤ vq ∧
      (calculate_bollinger_bands prices period sd).upper[i]? =
        some (some ((mq : ℝ) + Real.sqrt ((vq : ℚ) : ℝ) * (sd : ℝ))) ∧
      (calculate_bollinger_bands prices period sd).middle[i]? = some (some ((mq : ℝ))) ∧
      (calculate_bollinger_bands prices period sd).lower[i]? =
        some (some ((mq : ℝ) - Real.sqrt ((vq : ℚ) : ℝ) * (sd : ℝ))) := by
  refine ⟨(((prices.take (i + 1)).drop (i + 1 - period)).sum) / (period : ℚ),
    (((((prices.take (i + 1)).drop (i + 1 - period)).map
      (fun x => (x - (((prices.take (i + 1)).drop (i + 1 - period)).sum) / (period : ℚ)) ^ 2)).sum))
      / ((period : ℚ) - 1), ?_, ?_, ?_, ?_⟩
  · apply div_nonneg
    · exact List.sum_nonneg (by
        intro x hx
        simp only [List.mem_map] at hx
        obtain ⟨y, _, rfl⟩ := hx
        positivity)
    · have : (2:ℚ) ≤ (period : ℚ) := by exact_mod_cast hper
      linarith
  · rw [bollinger_upper_eq, zipWithElem, rollingMean_getElem?_lt _ _ _ hi, if_pos hc]
    have hv : (rollingStd prices period)[i]? =
        some (some (Real.sqrt (((((((prices.take (i + 1)).drop (i + 1 - period)).map
          (fun x => (x - (((prices.take (i + 1)).drop (i + 1 - period)).sum) / (period : ℚ)) ^ 2)).sum))
          / ((period : ℚ) - 1) : ℚ) : ℝ))) := by
      rw [rollingStd, List.getElem?_map, rollingVar_getElem?_lt _ _ _ hi, if_pos ⟨hc, hper⟩]
      rfl
    rw [hv]
    rfl
  · rw [bollinger_middle_eq, List.getElem?_map, rollingMean_getElem?_lt _ _ _ hi, if_pos hc]
    rfl
  · rw [bollinger_lower_eq, zipWithElem, rollingMean_getElem?_lt _ _ _ hi, if_pos hc]
    have hv : (rollingStd prices period)[i]? =
        some (some (Real.sqrt (((((((prices.take (i + 1)).drop (i + 1 - period)).map
          (fun x => (x - (((prices.take (i + 1)).drop (i + 1 - period)).sum) / (period : ℚ)) ^ 2)).sum))
          / ((period : ℚ) - 1) : ℚ) : ℝ))) := by
      rw [rollingStd, List.getElem?_map, rollingVar_getElem?_lt _ _ _ hi, if_pos ⟨hc, hper⟩]
      rfl
    rw [hv]
    rfl

theorem bollinger_undefined_values (prices : List ℚ) (period : ℕ) (sd : ℚ) (i : ℕ)
    (hi : i < prices.length) (hc : ¬ period ≤ i + 1) :
    (calculate_bollinger_bands prices period sd).upper[i]? = some none ∧
    (calculate_bollinger_bands prices period sd).middle[i]? = some none ∧
    (calculate_bollinger_bands prices period sd).lower[i]? = some none := by
  have hv : (rollingStd prices period)[i]? = some none := by
    rw [rollingStd, List.getElem?_map, rollingVar_getElem?_lt _ _ _ hi,
      if_neg (by tauto)]
    rfl
  refine ⟨?_, ?_, ?_⟩
  · rw [bollinger_upper_eq, zipWithElem, rollingMean_getElem?_lt _ _ _ hi, if_neg hc, hv]
    rfl
  · rw [bollinger_middle_eq, List.getElem?_map, rollingMean_getElem?_lt _ _ _ hi, if_neg hc]
    rfl
  · rw [bollinger_lower_eq, zipWithElem, rollingMean_getElem?_lt _ _ _ hi, if_neg hc, hv]
    rfl

theorem bollinger_oob (prices : List ℚ) (period : ℕ) (sd : ℚ) (i : ℕ)
    (hi : ¬ i < prices.length) :
    (calculate_bollinger_bands prices period sd).upper[i]? = none ∧
    (calculate_bollinger_bands prices period sd).middle[i]? = none ∧
    (calculate_bollinger_bands prices period sd).lower[i]? = none := by
  refine ⟨?_, ?_, ?_⟩
  · apply List.getElem?_eq_none
    rw [bollinger_upper_eq, List.length_zipWith, rollingMean_length, rollingStd_length]
    omega
  · apply List.getElem?_eq_none
    rw [bollinger_middle_eq, List.length_map, rollingMean_length]
    omega
  · apply List.getElem?_eq_none
    rw [bollinger_lower_eq, List.length_zipWith, rollingMean_length, rollingStd_length]
    omega

/-- C8, counterexample: with period 1 (legal for pandas `rolling`) the
rolling mean is defined at index 0 but the sample standard deviation
(`ddof = 1`) is `NaN` there, so the middle band is defined where the upper
and lower bands are not: the undefined positions do NOT propagate
identically across the three outputs. -/
theorem bollinger_period_one_misaligned :
    (calculate_bollinger_bands [(1:ℚ), 2] 1 2).middle[0]? =
      some (some ((((1:ℚ) + 0) / 1 : ℚ) : ℝ)) ∧
    (calculate_bollinger_bands [(1:ℚ), 2] 1 2).upper[0]? = some none ∧
    (calculate_bollinger_bands [(1:ℚ), 2] 1 2).lower[0]? = some none := by
  have hm : (rollingMean [(1:ℚ), 2] 1)[0]? = some (some (((1:ℚ) + 0) / 1)) := by
    rw [rollingMean_getElem?_lt _ _ _ (by norm_num), if_pos (by norm_num)]
    norm_num
  have hs : (rollingStd [(1:ℚ), 2] 1)[0]? = some none := by
    rw [rollingStd, List.getElem?_map, rollingVar_getElem?_lt _ _ _ (by norm_num),
      if_neg (by norm_num)]
    rfl
  refine ⟨?_, ?_, ?_⟩
  · rw [bollinger_middle_eq, List.getElem?_map, hm]
    rfl
  · rw [bollinger_upper_eq, zipWithElem, hm, hs]
    rfl
  · rw [bollinger_lower_eq, zipWithElem, hm, hs]
    rfl

/-- C8 (amended): for every price series, every period at least 2, and
every non-negative standard-deviation multiplier, the three Bollinger
outputs have the length of the input, their undefined positions coincide,
and wherever all three are defined `lower[i] ≤ middle[i] ≤ upper[i]`.
(The restriction to periods `≥ 2` is forced: with period 1 the sample
standard deviation has zero degrees of freedom and only the middle band is
defined.) -/
theorem bollinger_bands_aligned_and_ordered (prices : List ℚ) (period : ℕ) (sd : ℚ)
    (hper : 2 ≤ period) (hsd : 0 ≤ sd) :
    ((calculate_bollinger_bands prices period sd).upper.length = prices.length ∧
     (calculate_bollinger_bands prices period sd).middle.length = prices.length ∧
     (calculate_bollinger_bands prices period sd).lower.length = prices.length) ∧
    (∀ i : ℕ, ((calculate_bollinger_bands prices period sd).upper[i]? = some none ↔
           (calculate_bollinger_bands prices period sd).middle[i]? = some none) ∧
          ((calculate_bollinger_bands prices period sd).lower[i]? = some none ↔
           (calculate_bollinger_bands prices period sd).middle[i]? = some none)) ∧
    (∀ i : ℕ, ∀ u m lw : ℝ,
      (calculate_bollinger_bands prices period sd).upper[i]? = some (some u) →
      (calculate_bollinger_bands prices period sd).middle[i]? = some (some m) →
      (calculate_bollinger_bands prices period sd).lower[i]? = some (some lw) →
      lw ≤ m ∧ m ≤ u) := by
  refine ⟨⟨?_, ?_, ?_⟩, ?_, ?_⟩
  · rw [bollinger_upper_eq, List.length_zipWith, rollingMean_length, rollingStd_length]
    omega
  · rw [bollinger_middle_eq, List.length_map, rollingMean_length]
  · rw [bollinger_lower_eq, List.length_zipWith, rollingMean_length, rollingStd_length]
    omega
  · intro i
    by_cases hi : i < prices.length
    · by_cases hc : period ≤ i + 1
      · obtain ⟨mq, vq, _, hu, hmid, hlo⟩ :=
          bollinger_defined_values prices period sd i hi hc hper
        rw [hu, hmid, hlo]
        constructor <;> constructor <;> intro hbad <;> simp at hbad
      · obtain ⟨hu, hmid, hlo⟩ := bollinger_undefined_values prices period sd i hi hc
        rw [hu, hmid, hlo]
        simp
    · obtain ⟨hu, hmid, hlo⟩ := bollinger_oob prices period sd i hi
      rw [hu, hmid, hlo]
      simp
  · intro i u m lw hu' hm' hl'
    by_cases hi : i < prices.length
    · by_cases hc : period ≤ i + 1
      · obtain ⟨mq, vq, hvq, hu, hmid, hlo⟩ :=
          bollinger_defined_values prices period sd i hi hc hper
        rw [hu] at hu'
        rw [hmid] at hm'
        rw [hlo] at hl'
        have hu2 : u = (mq : ℝ) + Real.sqrt ((vq : ℚ) : ℝ) * (sd : ℝ) := by
          have := Option.some.inj hu'
          exact (Option.some.inj this).symm
        have hm2 : m = (mq : ℝ) := by
          have := Option.some.inj hm'
          exact (Option.some.inj this).symm
        have hl2 : lw = (mq : ℝ) - Real.sqrt ((vq : ℚ) : ℝ) * (sd : ℝ) := by
          have := Option.some.inj hl'
          exact (Option.some.inj this).symm
        have hnn : 0 ≤ Real.sqrt ((vq : ℚ) : ℝ) * (sd : ℝ) := by
          apply mul_nonneg (Real.sqrt_nonneg _)
          exact_mod_cast hsd
        subst hu2 hm2 hl2
        constructor <;> linarith
      · obtain ⟨hu, _, _⟩ := bollinger_undefined_values prices period sd i hi hc
        rw [hu] at hu'
        simp at hu'
    · obtain ⟨hu, _, _⟩ := bollinger_oob prices period sd i hi
      rw [hu] at hu'
      simp at hu'

/-- C8 witness: the amended theorem applied to `[1, 2, 3]` with period 2
and multiplier 2. -/
theorem bollinger_bands_aligned_and_ordered_witness :
    (calculate_bollinger_bands [(1:ℚ), 2, 3] 2 2).middle.length = [(1:ℚ), 2, 3].length :=
  (bollinger_bands_aligned_and_ordered [(1:ℚ), 2, 3] 2 2 (by norm_num) (by norm_num)).1.2.1

/-! ## Volume spike and screener claims -/

/-- C9: the volume-spike ratio is the latest volume divided by the mean
when the mean is positive, and exactly 0 when the mean is zero; the guard
makes the division total, so no division-by-zero error can occur. -/
theorem volume_spike_guard (vols : List ℚ) :
    (0 < listMean vols → volumeSpikeOf vols = vols.getLastD 0 / listMean vols) ∧
    (listMean vols = 0 → volumeSpikeOf vols = 0) := by
  constructor
  · intro h
    rw [volumeSpikeOf, if_pos h]
  · intro h
    rw [volumeSpikeOf, if_neg (by rw [h]; exact lt_irrefl 0)]

/-- C9 witness: mean 4 gives ratio `8/4 = 2`; the all-zero series gives
ratio 0. -/
theorem volume_spike_guard_witness :
    volumeSpikeOf [(2:ℚ), 2, 8] = 8 / 4 ∧ volumeSpikeOf [(0:ℚ), 0] = 0 := by
  constructor
  · have h := (volume_spike_guard [(2:ℚ), 2, 8]).1 (by norm_num [listMean])
    rw [h]
    norm_num [listMean]
  · exact (volume_spike_guard [(0:ℚ), 0]).2 (by norm_num [listMean])

theorem evalTicker_none_of_fail (crit : Criteria) (t : String) (o : FetchOutcome)
    (h : o = .raise ∨ o = .ok []) : evalTicker crit t o = none := by
  rcases h with h | h <;> subst h <;> rfl

/-- C4: a ticker with non-empty retrieved history and a defined latest RSI
`r` is admitted as a match iff `rsi_min ≤ r ≤ rsi_max` and its
volume-spike ratio meets the threshold, and the admitted record carries
the score `(100 - |50 - r|) + spike * 10`; in the two-ticker scenario
(A: rsi 45, spike 2; B: rsi 80) only A is admitted, with score 115, and
`total_scanned = 2`. -/
theorem screener_admission :
    (∀ (crit : Criteria) (t : String) (rows : List Row) (r : ℚ), rows ≠ [] →
      latestRsiOf (rows.map Row.close) = some r →
      evalTicker crit t (.ok rows) =
        (if crit.rsi_min ≤ r ∧ r ≤ crit.rsi_max ∧
            crit.volume_spike ≤ volumeSpikeOf (rows.map Row.volume) then
          some { ticker := t
                 price := (rows.map Row.close).getLastD 0
                 rsi := r
                 volume_spike := volumeSpikeOf (rows.map Row.volume)
                 score := (100 - |50 - r|) + volumeSpikeOf (rows.map Row.volume) * 10 }
        else none)) ∧
    run_screener envScenario ["A", "B"] critScenario =
      { results := [matchA], total_scanned := 2, matches_found := 1 } := by
  constructor
  · intro crit t rows r hne hr
    simp only [evalTicker]
    rw [if_neg (by simpa [List.isEmpty_iff] using hne), hr]
  · with_unfolding_all rfl

/-- C4 witness: the admission characterisation applied to the scenario
ticker B (`rsi = 80 > rsi_max = 70`), which is rejected. -/
theorem screener_admission_witness :
    evalTicker critScenario "B" (.ok rowsB) = none := by
  have h := screener_admission.1 critScenario "B" rowsB 80
    (by simp [rowsB]) (by with_unfolding_all rfl)
  rw [h, if_neg]
  intro hcontra
  obtain ⟨-, h2, -⟩ := hcontra
  norm_num [critScenario] at h2

/-- C5: the screener report returns at most 10 results, no more than the
number of admitted matches, sorted by score descending; equal-score
matches keep their original input order (Python's sort is stable);
`total_scanned` is the number of input tickers and `matches_found` the
number of admitted matches before truncation. -/
theorem screener_report_shape (fetch : String → FetchOutcome) (tickers : List String)
    (crit : Criteria) :
    (run_screener fetch tickers crit).results.length ≤ 10 ∧
    (run_screener fetch tickers crit).results.length ≤
      (run_screener fetch tickers crit).matches_found ∧
    (run_screener fetch tickers crit).results.Pairwise
      (fun a b => b.score ≤ a.score) ∧
    (∀ a b : ScreenerMatch, a.score = b.score →
      List.Sublist [a, b] (matchList fetch tickers crit) →
      List.Sublist [a, b] ((matchList fetch tickers crit).mergeSort scoreLe)) ∧
    (run_screener fetch tickers crit).results =
      ((matchList fetch tickers crit).mergeSort scoreLe).take 10 ∧
    (run_screener fetch tickers crit).total_scanned = tickers.length ∧
    (run_screener fetch tickers crit).matches_found =
      (matchList fetch tickers crit).length := by
  have htrans : ∀ a b c : ScreenerMatch, scoreLe a b → scoreLe b c → scoreLe a c := by
    intro a b c hab hbc
    simp only [scoreLe, decide_eq_true_eq] at hab hbc ⊢
    exact le_trans hbc hab
  have htotal : ∀ a b : ScreenerMatch, scoreLe a b || scoreLe b a := by
    intro a b
    simp only [scoreLe, Bool.or_eq_true, decide_eq_true_eq]
    exact le_total b.score a.score
  refine ⟨?_, ?_, ?_, ?_, rfl, rfl, rfl⟩
  · show (List.take 10 _).length ≤ 10
    rw [List.length_take]
    omega
  · show (List.take 10 _).length ≤ (matchList fetch tickers crit).length
    rw [List.length_take, List.length_mergeSort]
    omega
  · have hs := List.sorted_mergeSort htrans htotal (matchList fetch tickers crit)
    have hs2 : ((matchList fetch tickers crit).mergeSort scoreLe).Pairwise
        (fun a b : ScreenerMatch => b.score ≤ a.score) := by
      refine hs.imp ?_
      intro a b h
      simpa [scoreLe] using h
    exact hs2.sublist (List.take_sublist _ _)
  · intro a b hscore hsub
    refine List.pair_sublist_mergeSort htrans htotal ?_ hsub
    simp only [scoreLe, decide_eq_true_eq]
    rw [hscore]

/-- C5 witness: the report shape at the concrete scenario run. -/
theorem screener_report_shape_witness :
    (run_screener envScenario ["A", "B"] critScenario).results.length ≤ 10 ∧
    (run_screener envScenario ["A", "B"] critScenario).total_scanned = 2 :=
  ⟨(screener_report_shape envScenario ["A", "B"] critScenario).1,
   (screener_report_shape envScenario ["A", "B"] critScenario).2.2.2.2.2.1⟩

/-- C6: a ticker whose fetch raises or returns an empty history is
excluded from the admitted matches, the rest of the batch is evaluated
exactly as without it (the per-ticker `try/except ... continue` isolates
the failure), and the failing ticker still counts toward
`total_scanned`. -/
theorem screener_isolates_failures (fetch : String → FetchOutcome) (l1 l2 : List String)
    (t : String) (crit : Criteria)
    (hfail : fetch t = .raise ∨ fetch t = .ok []) :
    matchList fetch (l1 ++ t :: l2) crit = matchList fetch (l1 ++ l2) crit ∧
    (run_screener fetch (l1 ++ t :: l2) crit).results =
      (run_screener fetch (l1 ++ l2) crit).results ∧
    (run_screener fetch (l1 ++ t :: l2) crit).matches_found =
      (run_screener fetch (l1 ++ l2) crit).matches_found ∧
    (run_screener fetch (l1 ++ t :: l2) crit).total_scanned = l1.length + 1 + l2.length := by
  have hml : matchList fetch (l1 ++ t :: l2) crit = matchList fetch (l1 ++ l2) crit := by
    simp only [matchList, List.filterMap_append, List.filterMap_cons,
      evalTicker_none_of_fail crit t (fetch t) hfail]
  refine ⟨hml, ?_, ?_, ?_⟩
  · simp only [run_screener, hml]
  · simp only [run_screener, hml]
  · simp only [run_screener, List.length_append, List.length_cons]
    omega

/-- C6 witness: a three-ticker batch whose middle ticker always raises
still scans all three tickers and admits the same matches as without
it. -/
theorem screener_isolates_failures_witness :
    matchList (fun _ => FetchOutcome.raise) (["A"] ++ "B" :: ["C"]) critScenario =
      matchList (fun _ => FetchOutcome.raise) (["A"] ++ ["C"]) critScenario ∧
    (run_screener (fun _ => FetchOutcome.raise)
      (["A"] ++ "B" :: ["C"]) critScenario).total_scanned = 1 + 1 + 1 :=
  ⟨(screener_isolates_failures (fun _ => FetchOutcome.raise) ["A"] ["C"] "B" critScenario
      (Or.inl rfl)).1,
   (screener_isolates_failures (fun _ => FetchOutcome.raise) ["A"] ["C"] "B" critScenario
      (Or.inl rfl)).2.2.2⟩

/-- C10 (implicit): a ticker whose latest fallback RSI is undefined (for
example: history shorter than the period) is never admitted — the `NaN`
value fails the chained criteria comparison instead of raising — while
the ticker still counts toward `total_scanned`. -/
theorem screener_skips_undefined_rsi (fetch : String → FetchOutcome) (l1 l2 : List String)
    (t : String) (crit : Criteria) (rows : List Row)
    (hf : fetch t = .ok rows) (hne : rows ≠ [])
    (hrsi : latestRsiOf (rows.map Row.close) = none) :
    evalTicker crit t (fetch t) = none ∧
    matchList fetch (l1 ++ t :: l2) crit = matchList fetch (l1 ++ l2) crit ∧
    (run_screener fetch (l1 ++ t :: l2) crit).total_scanned = l1.length + 1 + l2.length := by
  have hev : evalTicker crit t (fetch t) = none := by
    rw [hf]
    simp only [evalTicker]
    rw [if_neg (by simpa [List.isEmpty_iff] using hne), hrsi]
  refine ⟨hev, ?_, ?_⟩
  · simp only [matchList, List.filterMap_append, List.filterMap_cons, hev]
  · simp only [run_screener, List.length_append, List.length_cons]
    omega

/-- C10 witness: a single ticker with a one-bar history (shorter than the
14-sample period, so its RSI is `NaN`) produces no match but is
scanned. -/
theorem screener_skips_undefined_rsi_witness :
    evalTicker critScenario "A"
      ((fun _ => FetchOutcome.ok [{ close := 1, volume := 1 }]) "A") = none ∧
    (run_screener (fun _ => FetchOutcome.ok [{ close := 1, volume := 1 }])
      ([] ++ "A" :: []) critScenario).total_scanned = 0 + 1 + 0 := by
  have h := screener_skips_undefined_rsi
    (fun _ => FetchOutcome.ok [{ close := 1, volume := 1 }]) [] [] "A" critScenario
    [{ close := 1, volume := 1 }] rfl (by simp) (by with_unfolding_all rfl)
  exact ⟨h.1, h.2.2⟩

end App
